import Mathlib

/-!
Verification of `concat_proj.py`, a tool that walks a directory tree,
selects files via include/ignore glob patterns, and concatenates their
contents into a single output file.

The embedding models the POSIX behaviour of the Python standard-library
pieces the script uses (`pathlib.PurePosixPath`, `fnmatch.fnmatch`,
`os.path.splitext`) and translates the script's own functions directly.
A directory walk is modelled as a list of `(relative path, content)`
pairs, where `content = none` stands for a file whose bytes cannot be
decoded as UTF-8 text.
-/

namespace ConcatProj

/-- Split a character list at every `/`, keeping (possibly empty)
segments. -/
def splitSlash : List Char → List String
  | [] => [""]
  | '/' :: rest => "" :: splitSlash rest
  | c :: rest =>
    match splitSlash rest with
    | [] => [String.mk [c]]
    | seg :: segs => (String.mk [c] ++ seg) :: segs

/-- The path segments produced by `pathlib.Path(p).parts` for a relative
POSIX path: split on `/`, dropping empty segments and single-dot
segments (`..` is kept). -/
def pathParts (p : String) : List String :=
  (splitSlash p.toList).filter (fun seg => seg != "" && seg != ".")

/-- Join path segments with `/` (`'/'.join` in Python). -/
def joinSlash : List String → String
  | [] => ""
  | [s] => s
  | s :: rest => s ++ "/" ++ joinSlash rest

/-- `str(pathlib.Path(p))` for a relative POSIX path (`os.sep` is `/`,
so the subsequent `.replace(os.sep, '/')` is the identity): the segments
re-joined with `/`, or `.` when there are none. -/
def normalizePath (p : String) : String :=
  let parts := pathParts p
  if parts.isEmpty then "." else joinSlash parts

/-- Python's `s.startswith(pre)` for strings. -/
def strStartsWith (s pre : String) : Bool :=
  pre.toList.isPrefixOf s.toList

/-- Python's `s.endswith(suf)` for strings. -/
def strEndsWith (s suf : String) : Bool :=
  suf.toList.reverse.isPrefixOf s.toList.reverse

/-- Python's `s.lower()`, for the ASCII letters that occur in the
paths and patterns of this development. -/
def strToLower (s : String) : String :=
  String.mk (s.toList.map Char.toLower)

/-- Substring test on character lists: does `needle` occur contiguously
inside the second list?  Models Python's `needle in hay` for strings. -/
def isInfixChars (needle : List Char) : List Char → Bool
  | [] => needle.isEmpty
  | c :: rest => needle.isPrefixOf (c :: rest) || isInfixChars needle rest

/-- Python's `needle in hay` substring containment for strings. -/
def containsStr (hay needle : String) : Bool :=
  isInfixChars needle.toList hay.toList

/-- Matching of `*` followed by the rest of a pattern, whose matcher is
`m`: try `m` at every suffix of the name (including the name itself and
the empty suffix). -/
def globStar (m : List Char → Bool) : List Char → Bool
  | [] => m []
  | c :: s => m (c :: s) || globStar m s

/-- Shell-glob matching of a pattern (as characters) against a name (as
characters), with `fnmatch.translate` semantics: `*` matches any
sequence of characters including `/` (so `**` is equivalent to `*`),
`?` matches exactly one character, and every other character matches
itself.  None of the patterns used by this repository contain bracket
expressions, so those are not modelled. -/
def globMatchAux : List Char → List Char → Bool
  | [], s => s.isEmpty
  | '*' :: ps, s => globStar (globMatchAux ps) s
  | '?' :: _, [] => false
  | '?' :: ps, _ :: s => globMatchAux ps s
  | _ :: _, [] => false
  | p :: ps, c :: s => p == c && globMatchAux ps s

/-- `fnmatch.fnmatch(name, pat)` on POSIX, where `os.path.normcase` is
the identity. -/
def fnmatch (name pat : String) : Bool :=
  globMatchAux pat.toList name.toList

/-- `get_default_ignore_patterns()`: the fixed list of ignore glob
patterns returned by the script. -/
def get_default_ignore_patterns : List String :=
  [ -- Virtual Environment directories
    "**/venv/**",
    "**/*venv/**",
    "**/env/**",
    "**/*.env/**",
    "**/virtualenv/**",
    "**/.virtualenvs/**",
    "**/.venv/**",
    "**/ENV/**",
    "**/python?env/**",
    -- Hidden files and directories
    "**/.*",
    "**/*~",
    "**/*.~*~",
    -- Build and cache directories
    "**/__pycache__/*",
    "**/node_modules/*",
    "**/build/*",
    "**/dist/*",
    "**/target/*",
    "**/bin/*",
    "**/obj/*",
    -- Compiled and binary files
    "**/*.pyc",
    "**/*.class",
    "**/*.o",
    "**/*.exe",
    "**/*.dll",
    "**/*.so",
    "**/*.dylib",
    -- Package files
    "**/*.jar",
    "**/*.war",
    "**/*.ear",
    -- Compressed files
    "**/*.zip",
    "**/*.tar",
    "**/*.gz",
    "**/*.rar",
    -- Editor backup files
    "**/*~",
    "**/*.swp",
    "**/*.swo",
    "**/*.swn",
    "**/*.bak",
    "**/*#",
    -- The script and its project folder
    "**/concat_proj.py",
    "**/concat-proj/**" ]

/-- `should_include_file(file_path, include_patterns, ignore_patterns)`:
normalize the path, reject hidden segments, `venv` segments
(case-insensitively) and trailing tildes, then reject ignore-pattern
matches; an empty include list accepts everything remaining, otherwise
at least one include pattern must match. -/
def should_include_file (file_path : String)
    (include_patterns ignore_patterns : List String) : Bool :=
  if (pathParts (normalizePath file_path)).any
      (fun part => strStartsWith part ".") then false
  else if (pathParts (normalizePath file_path)).any
      (fun part => containsStr (strToLower part) "venv") then false
  else if strEndsWith (normalizePath file_path) "~" then false
  else if ignore_patterns.any (fun pat => fnmatch (normalizePath file_path) pat)
    then false
  else if include_patterns.isEmpty then true
  else include_patterns.any (fun pat => fnmatch (normalizePath file_path) pat)

/-- The 80-character `=` separator line written by the script. -/
def equalsSep : String := String.mk (List.replicate 80 '=')

/-- The 80-character `-` separator line written by the script. -/
def dashSep : String := String.mk (List.replicate 80 '-')

/-- A walked file: its path relative to the root, and `some` decoded
text content, or `none` when reading it raises `UnicodeDecodeError`. -/
abbrev FileEntry := String × Option String

/-- The text written for one included file by the content loop of
`concatenate_files`: header, `=` separator, content and `-` separator
for a text file.  For an undecodable file the header and the `=`
separator are already written before `infile.read()` raises
`UnicodeDecodeError` (the read happens after those two writes), so the
except handler's `(binary file - contents skipped)` header and `-`
separator follow them. -/
def fileBlock : FileEntry → String
  | (rel, some txt) =>
      "\n# File: " ++ rel ++ "\n" ++ equalsSep ++ "\n" ++ txt ++ "\n"
        ++ dashSep ++ "\n"
  | (rel, none) =>
      "\n# File: " ++ rel ++ "\n" ++ equalsSep ++ "\n"
        ++ "\n# File: " ++ rel ++ " (binary file - contents skipped)\n"
        ++ dashSep ++ "\n"

/-- The whole `File Contents` section body: the blocks of the included
files written sequentially, in order. -/
def contentsText : List FileEntry → String
  | [] => ""
  | f :: rest => fileBlock f ++ contentsText rest

/-- One directory-header line of the structure block: four spaces of
indentation per depth level, a branch marker, the segment name and a
trailing slash. -/
def dirHeaderLine (depth : Nat) (part : String) : String :=
  String.mk (List.replicate (4 * depth) ' ') ++ "├── " ++ part ++ "/"

/-- The filename line of the structure block for a path with `n`
segments: indentation `4 * (n - 1)` and the final segment. -/
def fileLine (depth : Nat) (name : String) : String :=
  String.mk (List.replicate (4 * depth) ' ') ++ "├── " ++ name

/-- The inner loop of the structure renderer over the directory
segments of one path: at index `i`, append the segment to
`current_dirs` when `i` is past its end (writing a header), overwrite
`current_dirs[i]` when it differs from the segment (writing a header),
and otherwise keep it (writing nothing).  Returns the updated
`current_dirs` together with the header lines written. -/
def renderDirs : Nat → List String → List String → List String × List String
  | _, [], dirs => (dirs, [])
  | i, part :: rest, dirs =>
    if i ≥ dirs.length then
      let out := renderDirs (i + 1) rest (dirs ++ [part])
      (out.1, dirHeaderLine i part :: out.2)
    else if dirs.getD i "" != part then
      let out := renderDirs (i + 1) rest (dirs.set i part)
      (out.1, dirHeaderLine i part :: out.2)
    else
      renderDirs (i + 1) rest dirs

/-- One iteration of the structure renderer's outer loop: process the
directory segments of `rel_path`, then write the filename line.
(`parts[-1]` in Python presupposes a nonempty `parts`, which holds for
every path produced by the walk; an empty one is given last name `""`.) -/
def renderPath (acc : List String × List String) (rel_path : String) :
    List String × List String :=
  let parts := pathParts rel_path
  let out := renderDirs 0 parts.dropLast acc.1
  (out.1, acc.2 ++ out.2 ++ [fileLine (parts.length - 1) (parts.getLastD "")])

/-- All lines of the `Directory Structure` block for the sorted
included relative paths, starting from an empty `current_dirs`. -/
def structureLines (paths : List String) : List String :=
  (paths.foldl renderPath ([], [])).2

/-- The `Directory Structure` block as text (each line
newline-terminated). -/
def structureText (paths : List String) : String :=
  String.join ((structureLines paths).map (fun l => l ++ "\n"))

/-- Everything `concatenate_files` writes to the output file, given the
already-filtered and sorted included files. -/
def concatOutput (rootName : String) (included : List FileEntry)
    (show_structure : Bool) : String :=
  (if show_structure then
      "Project: " ++ rootName ++ "\n" ++ "Directory Structure:\n"
        ++ structureText (included.map Prod.fst)
        ++ "\nFile Contents:\n" ++ equalsSep ++ "\n\n"
    else "") ++ contentsText included

/-- The script sorts the `(rel_path, full_path)` pairs with Python's
list sort; the relative paths of distinct files are distinct, so this
is a sort by relative path. -/
def sortFiles (l : List FileEntry) : List FileEntry :=
  l.mergeSort (fun a b => a.1 ≤ b.1)

/-- `concatenate_files`: filter the walked files through
`should_include_file`, sort, and produce the output text. -/
def concatenate_files (rootName : String) (walk : List FileEntry)
    (include_patterns ignore_patterns : List String)
    (show_structure : Bool) : String :=
  let included := walk.filter
    (fun f => should_include_file f.1 include_patterns ignore_patterns)
  concatOutput rootName (sortFiles included) show_structure

/-- The extension part of `os.path.splitext(name)` for a bare filename:
the suffix from the last dot on, except that a dot is not an extension
separator when every character before it is itself a dot (so `.hidden`
and `..foo` have no extension). -/
def splitextExt (name : String) : String :=
  let cs := name.toList
  match (cs.reverse.findIdx? (· == '.')) with
  | none => ""
  | some j =>
    let d := cs.length - 1 - j
    if (cs.take d).all (· == '.') then ""
    else String.mk (cs.drop d)

/-- `get_file_extensions`: the set of distinct non-empty extensions
over all walked file names (no include/ignore filtering). -/
def get_file_extensions (fileNames : List String) : Finset String :=
  fileNames.foldl
    (fun acc f =>
      let ext := splitextExt f
      if ext = "" then acc else insert ext acc) ∅

/-- The final segment of a relative path: the bare filename `os.walk`
yields for it. -/
def baseName (p : String) : String :=
  (pathParts p).getLastD p

/-- What one invocation of `main` observably produces, besides its exit:
the lines printed to stdout and the output file's content (`none` when
no output file is written). -/
def mainRun (list_extensions : Bool) (rootName : String)
    (walk : List FileEntry) (include_patterns extra_ignore : List String)
    (no_structure : Bool) : List String × Option String :=
  if list_extensions then
    ("File extensions found in project:" ::
      ((get_file_extensions (walk.map (fun f => baseName f.1))).sort (· ≤ ·)).map
        (fun ext => "  " ++ ext),
     none)
  else
    let ignore_patterns := get_default_ignore_patterns ++ extra_ignore
    let output := concatenate_files rootName walk include_patterns
      ignore_patterns (!no_structure)
    (["Files have been combined into the output path"] ++
      (if include_patterns.isEmpty then []
        else ["Included patterns: " ++ String.intercalate ", " include_patterns]),
     some output)

/-! ### Theorems about the filtering policy -/

/-- C2: with an empty include-pattern list, `should_include_file`
accepts every path that survives the hidden/venv/tilde checks and
matches no ignore pattern — an empty include list means "match
everything not ignored", not "match nothing". -/
theorem empty_include_accepts_non_ignored (p : String) (ign : List String)
    (h1 : (pathParts (normalizePath p)).any
      (fun part => strStartsWith part ".") = false)
    (h2 : (pathParts (normalizePath p)).any
      (fun part => containsStr (strToLower part) "venv") = false)
    (h3 : strEndsWith (normalizePath p) "~" = false)
    (h4 : (ign.any fun pat => fnmatch (normalizePath p) pat) = false) :
    should_include_file p [] ign = true := by
  simp [should_include_file, h1, h2, h3, h4]

/-- Witness for C2 at `src/app.py` with the default ignore patterns. -/
theorem empty_include_accepts_non_ignored_witness :
    ((pathParts (normalizePath "src/app.py")).any
        (fun part => strStartsWith part ".") = false
      ∧ (pathParts (normalizePath "src/app.py")).any
        (fun part => containsStr (strToLower part) "venv") = false
      ∧ strEndsWith (normalizePath "src/app.py") "~" = false
      ∧ (get_default_ignore_patterns.any
          fun pat => fnmatch (normalizePath "src/app.py") pat) = false)
    ∧ should_include_file "src/app.py" [] get_default_ignore_patterns = true :=
  ⟨⟨by decide, by decide, by decide, by decide⟩,
    empty_include_accepts_non_ignored "src/app.py" get_default_ignore_patterns
      (by decide) (by decide) (by decide) (by decide)⟩

/-- C3: a path matching at least one ignore pattern is rejected by
`should_include_file`, regardless of the include patterns — ignore
rules take precedence over include rules. -/
theorem ignore_overrides_include (p pat : String) (incl ign : List String)
    (hmem : pat ∈ ign) (hmatch : fnmatch (normalizePath p) pat = true) :
    should_include_file p incl ign = false := by
  have hany : (ign.any fun q => fnmatch (normalizePath p) q) = true :=
    List.any_eq_true.mpr ⟨pat, hmem, hmatch⟩
  simp [should_include_file, hany]

/-- Witness for C3: `docs/readme.md` matches the ignore pattern
`**/*.md` and is rejected although the include pattern `**` matches. -/
theorem ignore_overrides_include_witness :
    ("**/*.md" ∈ (["**/*.md"] : List String)
      ∧ fnmatch (normalizePath "docs/readme.md") "**/*.md" = true
      ∧ fnmatch (normalizePath "docs/readme.md") "**" = true)
    ∧ should_include_file "docs/readme.md" ["**"] ["**/*.md"] = false :=
  ⟨⟨by decide, by decide, by decide⟩,
    ignore_overrides_include "docs/readme.md" "**/*.md" ["**"] ["**/*.md"]
      (by decide) (by decide)⟩

/-- C4: a path with any segment starting with `.` is rejected by
`should_include_file`, regardless of the include and ignore patterns. -/
theorem hidden_segment_never_included (p : String) (incl ign : List String)
    (h : (pathParts (normalizePath p)).any
      (fun part => strStartsWith part ".") = true) :
    should_include_file p incl ign = false := by
  simp [should_include_file, h]

/-- Witness for C4 at `.git/config` with a match-all include pattern. -/
theorem hidden_segment_never_included_witness :
    (pathParts (normalizePath ".git/config")).any
      (fun part => strStartsWith part ".") = true
    ∧ should_include_file ".git/config" ["**"] [] = false :=
  ⟨by decide, hidden_segment_never_included ".git/config" ["**"] [] (by decide)⟩

/-- C5: a path with any segment containing the case-insensitive
substring `venv` is rejected by `should_include_file`, regardless of
the include and ignore patterns. -/
theorem venv_segment_never_included (p : String) (incl ign : List String)
    (h : (pathParts (normalizePath p)).any
      (fun part => containsStr (strToLower part) "venv") = true) :
    should_include_file p incl ign = false := by
  simp [should_include_file, h]

/-- Witness for C5 at `MyVenv/x.py` with a match-all include pattern. -/
theorem venv_segment_never_included_witness :
    (pathParts (normalizePath "MyVenv/x.py")).any
      (fun part => containsStr (strToLower part) "venv") = true
    ∧ should_include_file "MyVenv/x.py" ["**"] [] = false :=
  ⟨by decide, venv_segment_never_included "MyVenv/x.py" ["**"] [] (by decide)⟩

/-- C6: a path whose normalized form ends with `~` is rejected by
`should_include_file`, even when it matches an include pattern. -/
theorem tilde_never_included (p : String) (incl ign : List String)
    (h : strEndsWith (normalizePath p) "~" = true) :
    should_include_file p incl ign = false := by
  simp [should_include_file, h]

/-- Witness for C6 at `notes/file.txt~`, which the include pattern `**`
matches. -/
theorem tilde_never_included_witness :
    (strEndsWith (normalizePath "notes/file.txt~") "~" = true
      ∧ fnmatch (normalizePath "notes/file.txt~") "**" = true)
    ∧ should_include_file "notes/file.txt~" ["**"] [] = false :=
  ⟨⟨by decide, by decide⟩,
    tilde_never_included "notes/file.txt~" ["**"] [] (by decide)⟩

set_option maxRecDepth 16384 in
/-- C7: the claim (and the spec) say an undecodable file produces only
the `(binary file - contents skipped)` header and the dash separator,
but `infile.read()` raises `UnicodeDecodeError` only after the normal
`# File:` header and the `=` separator were already written, so the
code emits both headers for such a file.  Evaluating the faithful
model at a one-binary-file walk shows the actual bytes and that they
differ from the claimed ones. -/
theorem binary_file_emits_stray_header :
    contentsText [("img.png", none)]
      = "\n# File: img.png\n" ++ equalsSep ++ "\n"
        ++ "\n# File: img.png (binary file - contents skipped)\n"
        ++ dashSep ++ "\n"
    ∧ contentsText [("img.png", none)]
      ≠ "\n# File: img.png (binary file - contents skipped)\n"
        ++ dashSep ++ "\n" :=
  ⟨by decide, by decide⟩

/-! ### Theorems about list-extensions mode -/

/-- Membership after one step of the extension-collecting fold. -/
theorem mem_ext_step (acc : Finset String) (n e : String) :
    (e ∈ (if splitextExt n = "" then acc else insert (splitextExt n) acc))
      ↔ e ∈ acc ∨ (e ≠ "" ∧ splitextExt n = e) := by
  by_cases h : splitextExt n = ""
  · rw [if_pos h]
    constructor
    · exact Or.inl
    · rintro (ha | ⟨hne, he⟩)
      · exact ha
      · exact absurd (he ▸ h) hne
  · rw [if_neg h, Finset.mem_insert]
    constructor
    · rintro (rfl | ha)
      · exact Or.inr ⟨h, rfl⟩
      · exact Or.inl ha
    · rintro (ha | ⟨_, he⟩)
      · exact Or.inr ha
      · exact Or.inl he.symm

/-- Membership in the extension-collecting fold, generalized over the
accumulator. -/
theorem mem_ext_foldl (names : List String) (acc : Finset String) (e : String) :
    (e ∈ names.foldl
        (fun acc f =>
          let ext := splitextExt f
          if ext = "" then acc else insert ext acc) acc)
      ↔ e ∈ acc ∨ (e ≠ "" ∧ ∃ n ∈ names, splitextExt n = e) := by
  induction names generalizing acc with
  | nil => simp
  | cons n ns ih =>
    simp only [List.foldl_cons]
    rw [ih, mem_ext_step]
    constructor
    · rintro ((ha | ⟨hne, he⟩) | ⟨hne, m, hm, he⟩)
      · exact Or.inl ha
      · exact Or.inr ⟨hne, n, List.mem_cons_self _ _, he⟩
      · exact Or.inr ⟨hne, m, List.mem_cons_of_mem _ hm, he⟩
    · rintro (ha | ⟨hne, m, hm, he⟩)
      · exact Or.inl (Or.inl ha)
      · rcases List.mem_cons.mp hm with heq | hm'
        · exact Or.inl (Or.inr ⟨hne, heq ▸ he⟩)
        · exact Or.inr ⟨hne, m, hm', he⟩

/-- Characterization of `get_file_extensions`: exactly the non-empty
extensions of the walked file names. -/
theorem get_file_extensions_spec (names : List String) (e : String) :
    e ∈ get_file_extensions names
      ↔ e ≠ "" ∧ ∃ n ∈ names, splitextExt n = e := by
  unfold get_file_extensions
  rw [mem_ext_foldl]
  simp

/-- C9: with the list-extensions flag set, the tool writes no output
file; it prints the header line followed by the sorted list of
extensions, which are exactly the distinct non-empty extensions over
every walked file (no ignore/include filtering), in sorted order
without duplicates. -/
theorem list_extensions_mode (rootName : String) (walk : List FileEntry)
    (incl ign : List String) (ns : Bool) :
    (mainRun true rootName walk incl ign ns).2 = none
    ∧ (mainRun true rootName walk incl ign ns).1
        = "File extensions found in project:" ::
            ((get_file_extensions (walk.map (fun f => baseName f.1))).sort
              (· ≤ ·)).map (fun ext => "  " ++ ext)
    ∧ (∀ e : String,
        e ∈ (get_file_extensions (walk.map (fun f => baseName f.1))).sort (· ≤ ·)
          ↔ e ≠ "" ∧ ∃ f ∈ walk, splitextExt (baseName f.1) = e)
    ∧ ((get_file_extensions (walk.map (fun f => baseName f.1))).sort
        (· ≤ ·)).Sorted (· ≤ ·)
    ∧ ((get_file_extensions (walk.map (fun f => baseName f.1))).sort
        (· ≤ ·)).Nodup := by
  refine ⟨rfl, rfl, ?_, Finset.sort_sorted _ _, Finset.sort_nodup _ _⟩
  intro e
  rw [Finset.mem_sort, get_file_extensions_spec]
  constructor
  · rintro ⟨hne, n, hn, he⟩
    obtain ⟨f, hf, rfl⟩ := List.mem_map.mp hn
    exact ⟨hne, f, hf, he⟩
  · rintro ⟨hne, f, hf, he⟩
    exact ⟨hne, baseName f.1, List.mem_map.mpr ⟨f, hf, rfl⟩, he⟩

/-! ### Theorems about glob matching of the default patterns -/

/-- A successful `globStar` match applies its continuation successfully
to some suffix of the name. -/
theorem globStar_exists_suffix (m : List Char → Bool) (s : List Char)
    (h : globStar m s = true) : ∃ t, t <:+ s ∧ m t = true := by
  induction s with
  | nil => exact ⟨[], List.suffix_refl [], by simpa [globStar] using h⟩
  | cons c s ih =>
    simp only [globStar, Bool.or_eq_true] at h
    rcases h with h1 | h2
    · exact ⟨c :: s, List.suffix_refl _, h1⟩
    · obtain ⟨t, hts, hm⟩ := ih h2
      exact ⟨t, hts.trans (List.suffix_cons c s), hm⟩

/-- A pattern beginning with a literal `/` only matches names whose
first character is `/`. -/
theorem globMatchAux_slash_head (ps s : List Char)
    (h : globMatchAux ('/' :: ps) s = true) : '/' ∈ s := by
  cases s with
  | nil => simp [globMatchAux] at h
  | cons c s =>
    simp only [globMatchAux, Bool.and_eq_true, beq_iff_eq] at h
    exact h.1 ▸ List.mem_cons_self _ _

/-- C10: an ignore pattern of the form `**/...` demands, under fnmatch
semantics, a literal `/` in the matched path before the named part; in
particular `build/notes.txt` does not match `**/build/*` and
`concat_proj.py` does not match `**/concat_proj.py`, so both survive
the default ignore patterns with an empty include list. -/
theorem starstar_slash_patterns :
    (∀ p rest : String, fnmatch p ("**/" ++ rest) = true → '/' ∈ p.toList)
    ∧ fnmatch "build/notes.txt" "**/build/*" = false
    ∧ fnmatch "concat_proj.py" "**/concat_proj.py" = false
    ∧ should_include_file "build/notes.txt" [] get_default_ignore_patterns = true
    ∧ should_include_file "concat_proj.py" [] get_default_ignore_patterns = true := by
  refine ⟨?_, by decide, by decide, by decide, by decide⟩
  intro p rest h
  have hl : ("**/" ++ rest).toList = '*' :: '*' :: '/' :: rest.toList := by
    cases rest
    rfl
  unfold fnmatch at h
  rw [hl] at h
  simp only [globMatchAux] at h
  obtain ⟨t1, ht1, hm1⟩ := globStar_exists_suffix _ _ h
  simp only [globMatchAux] at hm1
  obtain ⟨t2, ht2, hm2⟩ := globStar_exists_suffix _ _ hm1
  exact ht1.subset (ht2.subset (globMatchAux_slash_head _ _ hm2))

/-- Witness for C10: the general part applied at `a/b` against the
pattern `**/b`. -/
theorem starstar_slash_patterns_witness : '/' ∈ "a/b".toList :=
  starstar_slash_patterns.1 "a/b" "b" (by decide)

/-! ### Determinism of the concatenation output -/

/-- Sorting the included-file list is invariant under reordering, as
long as the relative paths are distinct (as they are for the files of
one directory tree). -/
theorem sortFiles_eq_of_perm (l1 l2 : List FileEntry)
    (hperm : l1.Perm l2) (hnodup : (l1.map Prod.fst).Nodup) :
    sortFiles l1 = sortFiles l2 := by
  unfold sortFiles
  have htrans : ∀ a b c : FileEntry,
      (decide (a.1 ≤ b.1)) = true → (decide (b.1 ≤ c.1)) = true →
        (decide (a.1 ≤ c.1)) = true := by
    intro a b c h1 h2
    simp only [decide_eq_true_eq] at h1 h2 ⊢
    exact le_trans h1 h2
  have htot : ∀ a b : FileEntry,
      ((decide (a.1 ≤ b.1)) || (decide (b.1 ≤ a.1))) = true := by
    intro a b
    simp only [Bool.or_eq_true, decide_eq_true_eq]
    exact le_total a.1 b.1
  have hp1 := List.mergeSort_perm l1 (fun a b => decide (a.1 ≤ b.1))
  have hp2 := List.mergeSort_perm l2 (fun a b => decide (a.1 ≤ b.1))
  have hs1 := List.sorted_mergeSort htrans htot l1
  have hs2 := List.sorted_mergeSort htrans htot l2
  have hchain :
      (l1.mergeSort (fun a b => decide (a.1 ≤ b.1))).Perm
        (l2.mergeSort (fun a b => decide (a.1 ≤ b.1))) :=
    (hp1.trans hperm).trans hp2.symm
  have strict : ∀ (l : List FileEntry),
      ((l.mergeSort (fun a b => decide (a.1 ≤ b.1))).Perm l) →
      ((l.map Prod.fst).Nodup) →
      (l.mergeSort (fun a b => decide (a.1 ≤ b.1))).Pairwise
        (fun a b : FileEntry => decide (a.1 ≤ b.1) = true) →
      (l.mergeSort (fun a b => decide (a.1 ≤ b.1))).Pairwise
        (fun a b : FileEntry => a.1 < b.1) := by
    intro l hp hnd hs
    have hndm : ((l.mergeSort (fun a b => decide (a.1 ≤ b.1))).map Prod.fst).Nodup :=
      ((hp.map Prod.fst).nodup_iff).mpr hnd
    have hne := List.pairwise_map.mp hndm
    have hle : (l.mergeSort (fun a b => decide (a.1 ≤ b.1))).Pairwise
        (fun a b : FileEntry => a.1 ≤ b.1) :=
      hs.imp (fun h => by simpa using h)
    exact (hle.and hne).imp (fun h => lt_of_le_of_ne h.1 h.2)
  have hnodup2 : (l2.map Prod.fst).Nodup := ((hperm.map Prod.fst).nodup_iff).mp hnodup
  haveI : IsAntisymm FileEntry (fun a b : FileEntry => a.1 < b.1) :=
    ⟨fun a b h1 h2 => absurd h2 (lt_asymm h1)⟩
  exact List.eq_of_perm_of_sorted hchain
    (strict l1 hp1 hnodup hs1) (strict l2 hp2 hnodup2 hs2)

/-- C1: on an unchanged tree with the same arguments, the produced
output text does not depend on the order in which the walk enumerates
the files — the filtered file list is sorted before any output — so two
runs produce byte-identical output. -/
theorem concat_run_deterministic (rootName : String) (w1 w2 : List FileEntry)
    (incl ign : List String) (ss : Bool)
    (hperm : w1.Perm w2) (hnodup : (w1.map Prod.fst).Nodup) :
    concatenate_files rootName w1 incl ign ss
      = concatenate_files rootName w2 incl ign ss := by
  simp only [concatenate_files]
  have hf : (w1.filter (fun f => should_include_file f.1 incl ign)).Perm
      (w2.filter (fun f => should_include_file f.1 incl ign)) :=
    hperm.filter _
  have hn1 : ((w1.filter (fun f => should_include_file f.1 incl ign)).map
      Prod.fst).Nodup :=
    hnodup.sublist ((List.filter_sublist w1).map Prod.fst)
  rw [sortFiles_eq_of_perm _ _ hf hn1]

/-- Witness for C1: two traversal orders of a two-file tree give
identical output. -/
theorem concat_run_deterministic_witness :
    ([(("b.txt" : String), (some "B" : Option String)), ("a.txt", some "A")]).Perm
        [("a.txt", some "A"), ("b.txt", some "B")]
    ∧ (([(("b.txt" : String), (some "B" : Option String)),
          ("a.txt", some "A")]).map Prod.fst).Nodup
    ∧ concatenate_files "proj" [("b.txt", some "B"), ("a.txt", some "A")] [] [] true
        = concatenate_files "proj" [("a.txt", some "A"), ("b.txt", some "B")] [] [] true :=
  ⟨List.Perm.swap _ _ _, by decide,
    concat_run_deterministic "proj" _ _ [] [] true (List.Perm.swap _ _ _) (by decide)⟩

/-! ### Theorems about the structure renderer -/

/-- The directory-header lines predicted by the renderer's rule, as a
standalone specification: walking the directory segments of one path at
depth `i` against the remaining memo entries `todo`, a header is
emitted exactly when the depth is beyond the memo or the memo entry at
that depth differs from the segment — in particular, a segment equal to
the memo entry produces no header even under a different parent. -/
def headersFrom (i : Nat) : List String → List String → List String
  | _, [] => []
  | [], part :: rest => dirHeaderLine i part :: headersFrom (i + 1) [] rest
  | t :: ts, part :: rest =>
    if t = part then headersFrom (i + 1) ts rest
    else dirHeaderLine i part :: headersFrom (i + 1) ts rest

/-- The memo-updating loop of the renderer agrees with the standalone
header rule: processing segments `segs` against a memo whose first
`done.length` entries were already handled leaves the memo with `segs`
overwriting the untouched entries and emits the headers of
`headersFrom`. -/
theorem renderDirs_eq (segs : List String) : ∀ (done todo : List String),
    renderDirs done.length segs (done ++ todo)
      = (done ++ segs ++ todo.drop segs.length,
         headersFrom done.length todo segs) := by
  induction segs with
  | nil => intro done todo; simp [renderDirs, headersFrom]
  | cons part rest ih =>
    intro done todo
    cases todo with
    | nil =>
      have hcond : done.length ≥ (done ++ ([] : List String)).length := by simp
      have hrec := ih (done ++ [part]) []
      simp only [List.append_nil, List.length_append, List.length_cons,
        List.length_nil] at hrec hcond ⊢
      simp only [renderDirs, if_pos hcond]
      rw [hrec]
      simp [headersFrom]
    | cons t ts =>
      have hlen : ¬ done.length ≥ (done ++ t :: ts).length := by
        simp [List.length_append]
      have hget : (done ++ t :: ts).getD done.length "" = t := by
        simp [List.getD_eq_getElem?_getD,
          List.getElem?_append_right (Nat.le_refl done.length)]
      simp only [renderDirs, if_neg hlen, hget]
      by_cases heq : t = part
      · have hcond : (t != part) = false := by simp [heq]
        rw [hcond]
        simp only [Bool.false_eq_true, if_neg (by simp : ¬False)]
        have hrec := ih (done ++ [t]) ts
        simp only [List.length_append, List.length_cons, List.length_nil,
          List.append_assoc, List.singleton_append] at hrec
        rw [hrec]
        simp [headersFrom, heq, List.append_assoc]
      · have hcond : (t != part) = true := by simp [heq]
        rw [hcond]
        simp only [if_pos rfl]
        have hset : (done ++ t :: ts).set done.length part = done ++ part :: ts := by
          rw [List.set_append_right _ _ (Nat.le_refl done.length)]
          simp
        rw [hset]
        have hrec := ih (done ++ [part]) ts
        simp only [List.length_append, List.length_cons, List.length_nil,
          List.append_assoc, List.singleton_append] at hrec
        rw [hrec]
        simp [headersFrom, heq, List.append_assoc]

/-- One renderer step in closed form: the memo becomes the path's
directory segments (keeping deeper stale entries), the headers of
`headersFrom` are written, and one filename line is always written,
indented by the path's depth. -/
theorem renderPath_emits (dirs lines : List String) (p : String) :
    renderPath (dirs, lines) p
      = ((pathParts p).dropLast ++ dirs.drop (pathParts p).dropLast.length,
         lines ++ (headersFrom 0 dirs (pathParts p).dropLast
           ++ [fileLine ((pathParts p).length - 1) ((pathParts p).getLastD "")])) := by
  have h := renderDirs_eq (pathParts p).dropLast [] dirs
  simp only [List.nil_append, List.length_nil] at h
  simp [renderPath, h, List.append_assoc]

/-- The spec-side renderer step: same data as `renderPath`, but with
the header rule expressed by `headersFrom` instead of the
memo-mutating loop. -/
def renderSpecStep (acc : List String × List String) (p : String) :
    List String × List String :=
  ((pathParts p).dropLast ++ acc.1.drop (pathParts p).dropLast.length,
   acc.2 ++ (headersFrom 0 acc.1 (pathParts p).dropLast
     ++ [fileLine ((pathParts p).length - 1) ((pathParts p).getLastD "")]))

/-- C8 (amended): for every list of relative paths, the structure
renderer emits, per path, a filename line regardless of depth, and a
directory-header line at a given depth exactly when that depth is
beyond the memo of previously printed segments or the segment at that
depth changed going down the list — a same-named directory at the same
depth under a different parent produces no new header. -/
theorem structureLines_header_rule (paths : List String) :
    structureLines paths = (paths.foldl renderSpecStep ([], [])).2 := by
  unfold structureLines
  suffices h : ∀ acc : List String × List String,
      paths.foldl renderPath acc = paths.foldl renderSpecStep acc by
    rw [h]
  induction paths with
  | nil => intro acc; rfl
  | cons p ps ih =>
    intro acc
    obtain ⟨d, l⟩ := acc
    rw [List.foldl_cons, List.foldl_cons, renderPath_emits]
    exact ih _

/-- C8 counterexample: with included paths `a/x/f1` and `b/x/f2`, the
directory `x` appears under two different parents but gets only one
header line; the branch under `b` goes straight from the `b/` header to
the depth-2 filename line. -/
theorem repeated_segment_no_new_header :
    structureLines ["a/x/f1", "b/x/f2"]
      = ["├── a/", "    ├── x/", "        ├── f1", "├── b/", "        ├── f2"]
    ∧ (structureLines ["a/x/f1", "b/x/f2"]).count "    ├── x/" = 1 :=
  ⟨by decide, by decide⟩

end ConcatProj
